import Mathlib

/-!
# Verification of the splice-deed gutter-detection core

Shallow embedding of `src/skills/splice-deed/scripts/splice_deed.py`.

Modelling conventions:
* A decoded raster image is modelled as a grayscale `Img`: a width, a height
  and an intensity sampler `pix : ℕ → ℕ → ℕ` (the analysis pipeline only ever
  scores the single-channel luminance projection).
* Python `float` arithmetic is modelled with exact rationals `ℚ`; `int(x)`
  on the non-negative values that occur is `Int.floor` followed by `toNat`.
* `max(0, a - b)` on machine integers coincides with truncated `ℕ`
  subtraction, which is used where the source writes it.
* The imaging library's `resize` (bilinear) is an external collaborator; only
  its size contract (the requested dimensions) is relied upon, so its pixel
  content is modelled by plain coordinate scaling.
-/

namespace SpliceDeed

/-- A decoded grayscale raster image: width, height and an intensity sample
per coordinate pair (the `GrayscaleProjection` of the spec). -/
structure Img where
  width : ℕ
  height : ℕ
  pix : ℕ → ℕ → ℕ

/-- `img.crop((x0, y0, x1, y1))` of the imaging library: the sub-image with
size `(x1 - x0, y1 - y0)` whose samples are offset by `(x0, y0)`. -/
def crop (g : Img) (x0 y0 x1 y1 : ℕ) : Img :=
  ⟨x1 - x0, y1 - y0, fun x y => g.pix (x0 + x) (y0 + y)⟩

/-- Swap the two axes of an image (used to relate the vertical and the
horizontal halves of the pipeline, which the source duplicates). -/
def transpose (g : Img) : Img :=
  ⟨g.height, g.width, fun x y => g.pix y x⟩

/-- Bucket `i` of `band.histogram()` for a single-channel image: the number
of samples equal to `i`. -/
def histAt (g : Img) (i : ℕ) : ℕ :=
  ∑ x ∈ Finset.range g.width, ∑ y ∈ Finset.range g.height,
    if g.pix x y = i then 1 else 0

/-- `sum((255 - i) * c for i, c in enumerate(hist))`: total ink over the 256
intensity buckets of a grayscale histogram. -/
def inkScore (g : Img) : ℕ :=
  ∑ i ∈ Finset.range 256, (255 - i) * histAt g i

/-- The `10**18` sentinel returned for a degenerate band. -/
def sentinel : ℕ := 10 ^ 18

/-- `gutter_score_vertical(gray, x_center, band_px, y0, y1)` from the source:
clamp a band of thickness `band_px` centred at `x_center` to the image width,
return the sentinel when the clamped x-extent is empty, else the ink score of
the cropped band. (`max(0, x_center - band_px // 2)` is `ℕ` subtraction.) -/
def gutter_score_vertical (g : Img) (x_center band_px y0 y1 : ℕ) : ℕ :=
  let x0 := x_center - band_px / 2
  let x1 := min g.width (x0 + band_px)
  if x1 ≤ x0 then sentinel else inkScore (crop g x0 y0 x1 y1)

/-- `gutter_score_horizontal(gray, y_center, band_px, x0, x1)` from the
source: the axis-swapped twin of `gutter_score_vertical`. -/
def gutter_score_horizontal (g : Img) (y_center band_px x0 x1 : ℕ) : ℕ :=
  let y0 := y_center - band_px / 2
  let y1 := min g.height (y0 + band_px)
  if y1 ≤ y0 then sentinel else inkScore (crop g x0 y0 x1 y1)

/-- `is_probably_double_page(w, h)`: aspect-ratio test `w / max(h,1) >= 1.35`
(float arithmetic modelled exactly in `ℚ`; `1.35 = 27/20`). -/
def is_probably_double_page (w h : ℕ) : Bool :=
  decide ((27 / 20 : ℚ) ≤ (w : ℚ) / (max h 1 : ℚ))

/-- The `--mode` choice of the CLI. -/
inductive Mode where
  | auto
  | vertical
  | horizontal
deriving DecidableEq, Repr

/-- The orientation decision of `main`: split vertically, split horizontally,
or leave the image alone. -/
inductive Orient where
  | vert
  | horiz
  | single
deriving DecidableEq, Repr

/-- The mode-resolution logic of `main` (lines 188–197): an explicit mode is
forced; `auto` routes on `is_probably_double_page`, then on the transposed
ratio test `h / max(w,1) >= 1.35`, else classifies single-page. -/
def classify (mode : Mode) (w h : ℕ) : Orient :=
  match mode with
  | .vertical => .vert
  | .horizontal => .horiz
  | .auto =>
    if is_probably_double_page w h then .vert
    else if (27 / 20 : ℚ) ≤ (h : ℚ) / (max w 1 : ℚ) then .horiz
    else .single

/-- The imaging library's `img.resize((nw, nh), Image.BILINEAR)`: an external
collaborator. Only the produced dimensions are part of the core's contract;
the resampled content is modelled by coordinate scaling. -/
def resize (g : Img) (nw nh : ℕ) : Img :=
  ⟨nw, nh, fun x y => g.pix (x * g.width / nw) (y * g.height / nh)⟩

/-- `downsample_for_analysis(img, max_dim)`: `scale = max(w,h) / max_dim`; if
`scale <= 1.0` return the image unchanged with scale `1.0`, else resize to
`max(1, int(w / scale)) × max(1, int(h / scale))` and return the scale. -/
def downsample_for_analysis (g : Img) (max_dim : ℕ) : Img × ℚ :=
  let scale : ℚ := (max g.width g.height : ℚ) / (max_dim : ℚ)
  if scale ≤ 1 then (g, 1)
  else
    (resize g (max 1 (⌊(g.width : ℚ) / scale⌋).toNat)
             (max 1 (⌊(g.height : ℚ) / scale⌋).toNat), scale)

/-- The midline `mid = dimension // 2` of the search axis. -/
def split_mid (d : ℕ) : ℕ := d / 2

/-- `half_window = int(dimension * search / 2.0)`. -/
def half_window (d : ℕ) (search : ℚ) : ℕ :=
  (⌊(d : ℚ) * search / 2⌋).toNat

/-- `start = max(1, mid - half_window)` (machine-integer `mid - half_window`
clamped below by 1, which `ℕ` subtraction followed by `max 1` reproduces). -/
def split_start (d : ℕ) (search : ℚ) : ℕ :=
  max 1 (split_mid d - half_window d search)

/-- `end = min(dimension - 2, mid + half_window)`; for `d ≤ 2` the Python
value is `≤ 0` and the `ℕ` truncation yields the same (empty) search range. -/
def split_stop (d : ℕ) (search : ℚ) : ℕ :=
  min (d - 2) (split_mid d + half_window d search)

/-- `step = max(1, int(dimension / 500))`. -/
def split_step (d : ℕ) : ℕ :=
  max 1 (⌊(d : ℚ) / 500⌋).toNat

/-- The strided candidate positions `range(start, end + 1, step)` scanned by
the locator loop. -/
def split_candidates (d : ℕ) (search : ℚ) : List ℕ :=
  let s := split_start d search
  let e := split_stop d search
  if s ≤ e then List.range' s ((e - s) / split_step d + 1) (split_step d) else []

/-- The locator loop: fold over the candidates keeping the first strict
minimum of the score (`best_score is None or s < best_score`); `none` means
the loop body never ran. -/
def runSearch (score : ℕ → ℕ) (cands : List ℕ) : Option (ℕ × ℕ) :=
  cands.foldl
    (fun best x =>
      let s := score x
      match best with
      | none => some (x, s)
      | some (bx, bs) => if s < bs then some (x, s) else some (bx, bs))
    none

/-- `band_px = max(2, int(dimension * band))`. -/
def band_thickness (d : ℕ) (band : ℚ) : ℕ :=
  max 2 (⌊(d : ℚ) * band⌋).toNat

/-- The analysis-space margin `int(h * 0.08)` excluding the outer 8%. -/
def margin_lo (d : ℕ) : ℕ := (⌊(d : ℚ) * 8 / 100⌋).toNat

/-- The analysis-space margin `int(h * 0.92)`. -/
def margin_hi (d : ℕ) : ℕ := (⌊(d : ℚ) * 92 / 100⌋).toNat

/-- The analysis-space coordinate `best_x` selected by `find_split_vertical`
after the centre-bias fallback (lines 64–87 of the source, before the
back-mapping): the strided minimum if it beats `center_score * 0.95`
(`0.95 = 19/20`), the midline otherwise (also when the loop never ran). -/
def chosen_vertical (g : Img) (search band : ℚ) : ℕ :=
  let y0 := margin_lo g.height
  let y1 := margin_hi g.height
  let mid := split_mid g.width
  let band_px := band_thickness g.width band
  match runSearch (fun x => gutter_score_vertical g x band_px y0 y1)
      (split_candidates g.width search) with
  | none => mid
  | some (bx, bs) =>
    let center_score := gutter_score_vertical g mid band_px y0 y1
    if (center_score : ℚ) * (95 / 100) < (bs : ℚ) then mid else bx

/-- The analysis-space coordinate `best_y` selected by
`find_split_horizontal` (lines 95–118), the axis-swapped twin. -/
def chosen_horizontal (g : Img) (search band : ℚ) : ℕ :=
  let x0 := margin_lo g.width
  let x1 := margin_hi g.width
  let mid := split_mid g.height
  let band_px := band_thickness g.height band
  match runSearch (fun y => gutter_score_horizontal g y band_px x0 x1)
      (split_candidates g.height search) with
  | none => mid
  | some (by_, bs) =>
    let center_score := gutter_score_horizontal g mid band_px x0 x1
    if (center_score : ℚ) * (95 / 100) < (bs : ℚ) then mid else by_

/-- The back-mapping `int(best * scale)` of line 89/120: for the non-negative
products that occur (`scale ≥ 0`), Python truncation is the floor. -/
def map_back (c : ℕ) (scale : ℚ) : ℤ := ⌊(c : ℚ) * scale⌋

/-- `find_split_vertical` from the downsampled grayscale analysis image and
its scale onward: select a coordinate, map it back to full resolution. -/
def find_split_vertical_core (g : Img) (scale search band : ℚ) : ℤ :=
  map_back (chosen_vertical g search band) scale

/-- `find_split_horizontal` from the analysis image and scale onward. -/
def find_split_horizontal_core (g : Img) (scale search band : ℚ) : ℤ :=
  map_back (chosen_horizontal g search band) scale

/-- `find_split_vertical(img, search, band)`: downsample (the RGB→L
conversion is the identity on the grayscale model), then run the core. -/
def find_split_vertical (img : Img) (search band : ℚ) : ℤ :=
  let p := downsample_for_analysis img 900
  find_split_vertical_core p.1 p.2 search band

/-- `find_split_horizontal(img, search, band)`. -/
def find_split_horizontal (img : Img) (search band : ℚ) : ℤ :=
  let p := downsample_for_analysis img 900
  find_split_horizontal_core p.1 p.2 search band

/-- The seam clamp of `main`: `max(1, min(dimension - 1, split))` on machine
integers, landing in `ℕ` (the result is always ≥ 1). -/
def clamp_seam (d : ℕ) (s : ℤ) : ℕ :=
  (max 1 (min ((d : ℤ) - 1) s)).toNat

/-- The vertical split of `main` (lines 214–216): clamp the seam, crop
`left = (0,0,x,h)` and `right = (x,0,w,h)`. -/
def split_vertical (img : Img) (s : ℤ) : Img × Img :=
  let x := clamp_seam img.width s
  (crop img 0 0 x img.height, crop img x 0 img.width img.height)

/-- The horizontal split of `main` (lines 221–223): clamp the seam, crop
`top = (0,0,w,y)` and `bottom = (0,y,w,h)`. -/
def split_horizontal (img : Img) (s : ℤ) : Img × Img :=
  let y := clamp_seam img.height s
  (crop img 0 0 img.width y, crop img 0 y img.width img.height)

/-! ## Ink-score lemmas -/

/-- Histogram bucket of a constant-intensity image. -/
theorem histAt_const (g : Img) (v i : ℕ) (hp : ∀ x y, g.pix x y = v) :
    histAt g i = if v = i then g.width * g.height else 0 := by
  unfold histAt
  simp only [hp]
  rcases eq_or_ne v i with h | h
  · simp [h]
  · simp [h]

/-- Ink score of a constant-intensity image with a valid (≤ 255) sample. -/
theorem inkScore_const (g : Img) (v : ℕ) (hv : v ≤ 255) (hp : ∀ x y, g.pix x y = v) :
    inkScore g = (255 - v) * (g.width * g.height) := by
  unfold inkScore
  rw [Finset.sum_congr rfl (fun i _ => by rw [histAt_const g v i hp])]
  have step : ∀ i : ℕ, (255 - i) * (if v = i then g.width * g.height else 0)
      = if v = i then (255 - i) * (g.width * g.height) else 0 := by
    intro i
    split <;> simp
  rw [Finset.sum_congr rfl (fun i _ => step i), Finset.sum_ite_eq,
    if_pos (Finset.mem_range.mpr (by omega))]

/-- An image one of whose dimensions is zero has ink score 0 (its histogram
is identically zero), not the sentinel. -/
theorem inkScore_degenerate (g : Img) (h : g.width = 0 ∨ g.height = 0) :
    inkScore g = 0 := by
  unfold inkScore histAt
  rcases h with h | h <;> simp [h]

/-- The histogram scoring `Σ (255 - i) * count(i)` is the total per-pixel
ink `Σ (255 - intensity)` once every sample is a valid intensity. -/
theorem inkScore_eq_sum (g : Img) (hp : ∀ x y, g.pix x y ≤ 255) :
    inkScore g
      = ∑ x ∈ Finset.range g.width, ∑ y ∈ Finset.range g.height, (255 - g.pix x y) := by
  unfold inkScore histAt
  simp only [Finset.mul_sum, mul_ite, mul_one, mul_zero]
  rw [Finset.sum_comm]
  refine Finset.sum_congr rfl (fun x _ => ?_)
  rw [Finset.sum_comm]
  refine Finset.sum_congr rfl (fun y _ => ?_)
  rw [Finset.sum_ite_eq]
  exact if_pos (Finset.mem_range.mpr (by have := hp x y; omega))

/-! ## Claim C5: degenerate-band sentinel (corrected) -/

set_option maxRecDepth 4000

/-- C5 counterexample. The claim says a zero-area clamped band always yields
the sentinel. On a 10×10 all-black image with `x_center = 5`, `band_px = 2`
and the empty perpendicular range `[5, 5)`, the clamped band `[4,6) × [5,5)`
has zero area, yet the scorer returns 0 — not the sentinel — because the
source only tests the extent along the search axis. -/
theorem scorer_sentinel_counterexample :
    gutter_score_vertical ⟨10, 10, fun _ _ => 0⟩ 5 2 5 5 = 0
    ∧ (min (10 : ℕ) (5 - 2 / 2 + 2) - (5 - 2 / 2)) * ((5 : ℕ) - 5) = 0
    ∧ (0 : ℕ) ≠ sentinel := by
  refine ⟨by decide, by decide, by decide⟩

/-- C5 amended. The sentinel `10^18` is returned exactly when the clamped
extent along the *search* axis is empty, regardless of image content; a band
that is degenerate only in the perpendicular range (`p1 ≤ p0`) instead
scores 0 (its histogram is empty). -/
theorem scorer_sentinel_amended (g : Img) (c b p0 p1 : ℕ) :
    (min g.width (c - b / 2 + b) ≤ c - b / 2 →
      gutter_score_vertical g c b p0 p1 = sentinel)
    ∧ (p1 ≤ p0 → c - b / 2 < min g.width (c - b / 2 + b) →
      gutter_score_vertical g c b p0 p1 = 0)
    ∧ (min g.height (c - b / 2 + b) ≤ c - b / 2 →
      gutter_score_horizontal g c b p0 p1 = sentinel)
    ∧ (p1 ≤ p0 → c - b / 2 < min g.height (c - b / 2 + b) →
      gutter_score_horizontal g c b p0 p1 = 0) := by
  refine ⟨fun hdeg => ?_, fun hperp hne => ?_, fun hdeg => ?_, fun hperp hne => ?_⟩
  · simp only [gutter_score_vertical]
    rw [if_pos hdeg]
  · simp only [gutter_score_vertical]
    rw [if_neg (not_le.mpr hne)]
    exact inkScore_degenerate _ (Or.inr (by show p1 - p0 = 0; omega))
  · simp only [gutter_score_horizontal]
    rw [if_pos hdeg]
  · simp only [gutter_score_horizontal]
    rw [if_neg (not_le.mpr hne)]
    exact inkScore_degenerate _ (Or.inl (by show p1 - p0 = 0; omega))

/-- Witness for the amended C5: a zero-thickness band yields the sentinel; a
band with an empty perpendicular range scores 0. -/
theorem scorer_sentinel_amended_witness :
    gutter_score_vertical ⟨10, 10, fun _ _ => 0⟩ 5 0 2 8 = sentinel
    ∧ gutter_score_vertical ⟨7, 7, fun _ _ => 3⟩ 3 2 6 6 = 0 :=
  ⟨(scorer_sentinel_amended ⟨10, 10, fun _ _ => 0⟩ 5 0 2 8).1 (by decide),
   (scorer_sentinel_amended ⟨7, 7, fun _ _ => 3⟩ 3 2 6 6).2.1 (le_refl 6) (by decide)⟩

/-! ## Claim C7: the scorer is total ink; white scores 0, black maximal -/

/-- C7. On a non-degenerate band the score is the total ink
`Σ (255 - intensity)` over the band's pixels (the histogram formulation),
so an all-white band scores exactly 0 and an all-black band scores
255 times the band's pixel count, for both scorer orientations. -/
theorem scorer_ink_values (g : Img) (c b p0 p1 : ℕ) :
    (c - b / 2 < min g.width (c - b / 2 + b) →
      ((∀ x y, g.pix x y ≤ 255) →
        gutter_score_vertical g c b p0 p1
          = ∑ x ∈ Finset.range (min g.width (c - b / 2 + b) - (c - b / 2)),
              ∑ y ∈ Finset.range (p1 - p0),
                (255 - g.pix (c - b / 2 + x) (p0 + y)))
      ∧ ((∀ x y, g.pix x y = 255) → gutter_score_vertical g c b p0 p1 = 0)
      ∧ ((∀ x y, g.pix x y = 0) →
        gutter_score_vertical g c b p0 p1
          = 255 * ((min g.width (c - b / 2 + b) - (c - b / 2)) * (p1 - p0))))
    ∧ (c - b / 2 < min g.height (c - b / 2 + b) →
      ((∀ x y, g.pix x y ≤ 255) →
        gutter_score_horizontal g c b p0 p1
          = ∑ x ∈ Finset.range (p1 - p0),
              ∑ y ∈ Finset.range (min g.height (c - b / 2 + b) - (c - b / 2)),
                (255 - g.pix (p0 + x) (c - b / 2 + y)))
      ∧ ((∀ x y, g.pix x y = 255) → gutter_score_horizontal g c b p0 p1 = 0)
      ∧ ((∀ x y, g.pix x y = 0) →
        gutter_score_horizontal g c b p0 p1
          = 255 * ((p1 - p0) * (min g.height (c - b / 2 + b) - (c - b / 2))))) := by
  constructor
  · intro hne
    have hif : ¬ (min g.width (c - b / 2 + b) ≤ c - b / 2) := not_le.mpr hne
    refine ⟨fun hp => ?_, fun hp => ?_, fun hp => ?_⟩
    · simp only [gutter_score_vertical]
      rw [if_neg hif]
      exact inkScore_eq_sum _ (fun x y => hp _ _)
    · simp only [gutter_score_vertical]
      rw [if_neg hif]
      rw [inkScore_const (crop g (c - b / 2) p0 (min g.width (c - b / 2 + b)) p1) 255
        (le_refl 255) (fun x y => hp _ _)]
      simp
    · simp only [gutter_score_vertical]
      rw [if_neg hif]
      rw [inkScore_const (crop g (c - b / 2) p0 (min g.width (c - b / 2 + b)) p1) 0
        (by omega) (fun x y => hp _ _)]
      rfl
  · intro hne
    have hif : ¬ (min g.height (c - b / 2 + b) ≤ c - b / 2) := not_le.mpr hne
    refine ⟨fun hp => ?_, fun hp => ?_, fun hp => ?_⟩
    · simp only [gutter_score_horizontal]
      rw [if_neg hif]
      exact inkScore_eq_sum _ (fun x y => hp _ _)
    · simp only [gutter_score_horizontal]
      rw [if_neg hif]
      rw [inkScore_const (crop g p0 (c - b / 2) p1 (min g.height (c - b / 2 + b))) 255
        (le_refl 255) (fun x y => hp _ _)]
      simp
    · simp only [gutter_score_horizontal]
      rw [if_neg hif]
      rw [inkScore_const (crop g p0 (c - b / 2) p1 (min g.height (c - b / 2 + b))) 0
        (by omega) (fun x y => hp _ _)]
      rfl

/-- Witness for C7: on a 4×4 image, the band `[0,2) × [0,4)` scores 0 when
the image is pure white and `255 * 8` when it is pure black. -/
theorem scorer_ink_values_witness :
    gutter_score_vertical ⟨4, 4, fun _ _ => 255⟩ 1 2 0 4 = 0
    ∧ gutter_score_vertical ⟨4, 4, fun _ _ => 0⟩ 1 2 0 4 = 255 * (2 * 4) := by
  constructor
  · exact ((scorer_ink_values ⟨4, 4, fun _ _ => 255⟩ 1 2 0 4).1 (by decide)).2.1
      (fun _ _ => rfl)
  · have h := ((scorer_ink_values ⟨4, 4, fun _ _ => 0⟩ 1 2 0 4).1 (by decide)).2.2
      (fun _ _ => rfl)
    rw [h]
    decide

/-! ## Claim C3: orientation classifier -/

/-- C3. Orientation Classifier policy: in `auto` mode the image is
vertical-split iff `w / max(h,1) ≥ 1.35` (inclusive, so the exact boundary
`w=135, h=100` routes to the split branch while `w=134, h=100` is single),
else horizontal-split iff `h / max(w,1) ≥ 1.35`, else single-page; an
explicit `vertical`/`horizontal` mode bypasses the ratio test. -/
theorem classifier_policy :
    (∀ w h : ℕ,
      (classify .auto w h = .vert ↔ (27 / 20 : ℚ) ≤ (w : ℚ) / (max h 1 : ℚ))
      ∧ (classify .auto w h = .horiz ↔
          ¬ (27 / 20 : ℚ) ≤ (w : ℚ) / (max h 1 : ℚ)
            ∧ (27 / 20 : ℚ) ≤ (h : ℚ) / (max w 1 : ℚ))
      ∧ (classify .auto w h = .single ↔
          ¬ (27 / 20 : ℚ) ≤ (w : ℚ) / (max h 1 : ℚ)
            ∧ ¬ (27 / 20 : ℚ) ≤ (h : ℚ) / (max w 1 : ℚ))
      ∧ classify .vertical w h = .vert
      ∧ classify .horizontal w h = .horiz)
    ∧ classify .auto 135 100 = .vert
    ∧ classify .auto 134 100 = .single := by
  refine ⟨fun w h => ?_, ?_, ?_⟩
  · unfold classify is_probably_double_page
    by_cases h1 : (27 / 20 : ℚ) ≤ (w : ℚ) / (max h 1 : ℚ) <;>
      by_cases h2 : (27 / 20 : ℚ) ≤ (h : ℚ) / (max w 1 : ℚ) <;>
      simp [h1, h2]
  · unfold classify is_probably_double_page
    have : (max (100 : ℕ) 1 : ℚ) = 100 := by norm_num
    rw [if_pos]
    rw [decide_eq_true_eq, this]
    norm_num
  · unfold classify is_probably_double_page
    have h1 : (max (100 : ℕ) 1 : ℚ) = 100 := by norm_num
    have h2 : (max (134 : ℕ) 1 : ℚ) = 134 := by norm_num
    rw [if_neg, if_neg]
    · rw [h2]; norm_num
    · rw [decide_eq_true_eq, h1]; norm_num

/-! ## Claim C4: the downsampler never upscales -/

/-- C4. For `max(w,h) ≤ max_dim` the Downsampler returns the original image
unchanged with scale exactly 1; otherwise it returns the resampled image with
dimensions `max 1 ⌊original / scale⌋` and scale `max(w,h) / max_dim`; in
every case the returned scale is ≥ 1. -/
theorem downsampler_never_upscales (g : Img) (m : ℕ) (hm : 1 ≤ m) :
    (max g.width g.height ≤ m → downsample_for_analysis g m = (g, 1))
    ∧ (m < max g.width g.height →
        (downsample_for_analysis g m).2 = (max g.width g.height : ℚ) / (m : ℚ)
        ∧ (downsample_for_analysis g m).1.width
            = max 1 (⌊(g.width : ℚ) / ((max g.width g.height : ℚ) / (m : ℚ))⌋).toNat
        ∧ (downsample_for_analysis g m).1.height
            = max 1 (⌊(g.height : ℚ) / ((max g.width g.height : ℚ) / (m : ℚ))⌋).toNat)
    ∧ 1 ≤ (downsample_for_analysis g m).2 := by
  have hm0 : (0 : ℚ) < (m : ℚ) := by exact_mod_cast hm
  have key : ((max g.width g.height : ℚ) / (m : ℚ) ≤ 1) ↔ max g.width g.height ≤ m := by
    rw [div_le_one hm0]
    exact_mod_cast Iff.rfl
  by_cases hc : ((max g.width g.height : ℚ) / (m : ℚ)) ≤ 1
  · refine ⟨fun _ => ?_, fun hbig => ?_, ?_⟩
    · unfold downsample_for_analysis
      rw [if_pos hc]
    · exact absurd (key.mp hc) (by omega)
    · unfold downsample_for_analysis
      rw [if_pos hc]
  · refine ⟨fun hsmall => absurd (key.mpr hsmall) hc, fun _ => ?_, ?_⟩
    · unfold downsample_for_analysis
      rw [if_neg hc]
      exact ⟨rfl, rfl, rfl⟩
    · unfold downsample_for_analysis
      rw [if_neg hc]
      exact le_of_lt (lt_of_not_le hc)

/-- Witness for C4: a 100×50 image is returned unchanged with scale 1; an
1800×600 image gets scale ≥ 1 (in fact 2). -/
theorem downsampler_never_upscales_witness :
    downsample_for_analysis ⟨100, 50, fun _ _ => 7⟩ 900 = (⟨100, 50, fun _ _ => 7⟩, 1)
    ∧ (1 : ℚ) ≤ (downsample_for_analysis ⟨1800, 600, fun _ _ => 7⟩ 900).2 :=
  ⟨(downsampler_never_upscales ⟨100, 50, fun _ _ => 7⟩ 900 (by norm_num)).1 (by decide),
   (downsampler_never_upscales ⟨1800, 600, fun _ _ => 7⟩ 900 (by norm_num)).2.2⟩

/-! ## Claim C10: resampled dimensions stay in `[1, max_dim]` -/

/-- C10. Whenever the Downsampler actually resamples (`scale > 1`, i.e.
`max(w,h) > max_dim`), both output dimensions lie in `[1, max_dim]`. -/
theorem downsampler_dims_bounded (g : Img) (m : ℕ) (hm : 1 ≤ m)
    (hbig : m < max g.width g.height) :
    1 ≤ (downsample_for_analysis g m).1.width
    ∧ (downsample_for_analysis g m).1.width ≤ m
    ∧ 1 ≤ (downsample_for_analysis g m).1.height
    ∧ (downsample_for_analysis g m).1.height ≤ m := by
  have hm0 : (0 : ℚ) < (m : ℚ) := by exact_mod_cast hm
  have hmx : (0 : ℚ) < (max g.width g.height : ℚ) := by
    have : 0 < max g.width g.height := by omega
    exact_mod_cast this
  have hsc : ¬ ((max g.width g.height : ℚ) / (m : ℚ) ≤ 1) := by
    rw [div_le_one hm0]
    exact_mod_cast by omega
  have hscpos : (0 : ℚ) < (max g.width g.height : ℚ) / (m : ℚ) := div_pos hmx hm0
  have bound : ∀ d : ℕ, d ≤ max g.width g.height →
      (⌊(d : ℚ) / ((max g.width g.height : ℚ) / (m : ℚ))⌋).toNat ≤ m := by
    intro d hd
    have h1 : (d : ℚ) / ((max g.width g.height : ℚ) / (m : ℚ)) ≤ (m : ℚ) := by
      rw [div_le_iff₀ hscpos]
      rw [mul_div_assoc', mul_comm]
      rw [mul_div_assoc]
      rw [div_self (ne_of_gt hm0)]
      rw [mul_one]
      exact_mod_cast hd
    have h2 : ⌊(d : ℚ) / ((max g.width g.height : ℚ) / (m : ℚ))⌋ ≤ (m : ℤ) := by
      calc ⌊(d : ℚ) / ((max g.width g.height : ℚ) / (m : ℚ))⌋
          ≤ ⌊(m : ℚ)⌋ := Int.floor_le_floor h1
        _ = (m : ℤ) := Int.floor_natCast m
    exact Int.toNat_le.mpr h2
  unfold downsample_for_analysis
  rw [if_neg hsc]
  refine ⟨le_max_left 1 _, max_le hm (bound _ (le_max_left _ _)),
    le_max_left 1 _, max_le hm (bound _ (le_max_right _ _))⟩

/-- Witness for C10: the 1800×600 image is resampled into `[1, 900]²`. -/
theorem downsampler_dims_bounded_witness :
    1 ≤ (downsample_for_analysis ⟨1800, 600, fun _ _ => 7⟩ 900).1.width
    ∧ (downsample_for_analysis ⟨1800, 600, fun _ _ => 7⟩ 900).1.width ≤ 900
    ∧ 1 ≤ (downsample_for_analysis ⟨1800, 600, fun _ _ => 7⟩ 900).1.height
    ∧ (downsample_for_analysis ⟨1800, 600, fun _ _ => 7⟩ 900).1.height ≤ 900 :=
  downsampler_dims_bounded ⟨1800, 600, fun _ _ => 7⟩ 900 (by norm_num) (by decide)

/-! ## Claim C2: splitter partition (corrected) -/

/-- C2 counterexample. The claim quantifies over every input image, but on a
1×1 image the clamp target `[1, dimension-1] = [1, 0]` is empty: the seam is
clamped to 1, the right sub-image has width 0 (it is empty), so "both
resulting sub-images are non-empty" fails (the widths still sum to 1). -/
theorem splitter_partition_counterexample :
    clamp_seam 1 0 = 1
    ∧ (split_vertical ⟨1, 1, fun _ _ => 0⟩ 0).2.width = 0
    ∧ ¬ 1 ≤ (split_vertical ⟨1, 1, fun _ _ => 0⟩ 0).2.width := by
  refine ⟨by decide, by decide, by decide⟩

/-- C2 amended. For every image whose split dimension is at least 2 and
every seam coordinate, the seam is clamped into `[1, dimension-1]`, both
sub-images are non-empty, the split dimensions sum exactly to the original
and the non-split dimension of both outputs equals the original's (for a
1-pixel split dimension the clamp yields 1 and the far sub-image is empty,
though the dimensions still sum). -/
theorem splitter_partition_amended (img : Img) (s : ℤ) :
    (2 ≤ img.width →
      1 ≤ clamp_seam img.width s ∧ clamp_seam img.width s ≤ img.width - 1
      ∧ 1 ≤ (split_vertical img s).1.width ∧ 1 ≤ (split_vertical img s).2.width
      ∧ (split_vertical img s).1.width + (split_vertical img s).2.width = img.width
      ∧ (split_vertical img s).1.height = img.height
      ∧ (split_vertical img s).2.height = img.height)
    ∧ (2 ≤ img.height →
      1 ≤ clamp_seam img.height s ∧ clamp_seam img.height s ≤ img.height - 1
      ∧ 1 ≤ (split_horizontal img s).1.height ∧ 1 ≤ (split_horizontal img s).2.height
      ∧ (split_horizontal img s).1.height + (split_horizontal img s).2.height = img.height
      ∧ (split_horizontal img s).1.width = img.width
      ∧ (split_horizontal img s).2.width = img.width) := by
  constructor
  · intro hw
    have hc : 1 ≤ clamp_seam img.width s ∧ clamp_seam img.width s ≤ img.width - 1 := by
      unfold clamp_seam
      omega
    refine ⟨hc.1, hc.2, ?_, ?_, ?_, rfl, rfl⟩
    · show 1 ≤ clamp_seam img.width s - 0
      omega
    · show 1 ≤ img.width - clamp_seam img.width s
      omega
    · show (clamp_seam img.width s - 0) + (img.width - clamp_seam img.width s) = img.width
      omega
  · intro hh
    have hc : 1 ≤ clamp_seam img.height s ∧ clamp_seam img.height s ≤ img.height - 1 := by
      unfold clamp_seam
      omega
    refine ⟨hc.1, hc.2, ?_, ?_, ?_, rfl, rfl⟩
    · show 1 ≤ clamp_seam img.height s - 0
      omega
    · show 1 ≤ img.height - clamp_seam img.height s
      omega
    · show (clamp_seam img.height s - 0) + (img.height - clamp_seam img.height s) = img.height
      omega

/-- Witness for the amended C2: a 5×4 image with seam 7 (clamped to 4). -/
theorem splitter_partition_amended_witness :
    1 ≤ clamp_seam 5 7 ∧ clamp_seam 5 7 ≤ 4
    ∧ 1 ≤ (split_vertical ⟨5, 4, fun _ _ => 9⟩ 7).1.width
    ∧ 1 ≤ (split_vertical ⟨5, 4, fun _ _ => 9⟩ 7).2.width
    ∧ (split_vertical ⟨5, 4, fun _ _ => 9⟩ 7).1.width
        + (split_vertical ⟨5, 4, fun _ _ => 9⟩ 7).2.width = 5
    ∧ (split_vertical ⟨5, 4, fun _ _ => 9⟩ 7).1.height = 4
    ∧ (split_vertical ⟨5, 4, fun _ _ => 9⟩ 7).2.height = 4 :=
  (splitter_partition_amended ⟨5, 4, fun _ _ => 9⟩ 7).1 (by decide)

/-! ## The locator loop: fold lemmas -/

/-- Invariant of the locator fold: a `some` result is either the incoming
accumulator or a scanned candidate paired with its own score. -/
theorem runSearch_go (score : ℕ → ℕ) (l : List ℕ) :
    ∀ (acc : Option (ℕ × ℕ)) (bx bs : ℕ),
      List.foldl
        (fun best x =>
          let s := score x
          match best with
          | none => some (x, s)
          | some (bx, bs) => if s < bs then some (x, s) else some (bx, bs))
        acc l = some (bx, bs) →
      acc = some (bx, bs) ∨ (bx ∈ l ∧ bs = score bx) := by
  induction l with
  | nil =>
    intro acc bx bs h
    exact Or.inl h
  | cons x xs ih =>
    intro acc bx bs h
    rw [List.foldl_cons] at h
    rcases ih _ bx bs h with h1 | h1
    · cases acc with
      | none =>
        simp only [] at h1
        cases h1
        exact Or.inr ⟨List.mem_cons_self x xs, rfl⟩
      | some p =>
        obtain ⟨px, ps⟩ := p
        simp only [] at h1
        by_cases hlt : score x < ps
        · rw [if_pos hlt] at h1
          cases h1
          exact Or.inr ⟨List.mem_cons_self x xs, rfl⟩
        · rw [if_neg hlt] at h1
          exact Or.inl h1
    · exact Or.inr ⟨List.mem_cons_of_mem x h1.1, h1.2⟩

/-- A `some` result of the locator loop names a scanned candidate, paired
with that candidate's own score. -/
theorem runSearch_mem (score : ℕ → ℕ) (l : List ℕ) (bx bs : ℕ)
    (h : runSearch score l = some (bx, bs)) : bx ∈ l ∧ bs = score bx := by
  rcases runSearch_go score l none bx bs h with h1 | h1
  · exact absurd h1 (by simp)
  · exact h1

/-! ## Claim C9: locator totality -/

/-- C9. For every analysis image (degenerate sizes included), scale, search
fraction and band fraction, each locator returns the back-mapped integer
coordinate of either a scanned strided candidate or the midline — there is
no other outcome and no failure value. -/
theorem locator_totality (g : Img) (scale search band : ℚ) :
    (∃ c : ℕ, (c ∈ split_candidates g.width search ∨ c = split_mid g.width)
      ∧ find_split_vertical_core g scale search band = map_back c scale)
    ∧ (∃ c : ℕ, (c ∈ split_candidates g.height search ∨ c = split_mid g.height)
      ∧ find_split_horizontal_core g scale search band = map_back c scale) := by
  constructor
  · simp only [find_split_vertical_core, chosen_vertical]
    cases hr : runSearch
        (fun x => gutter_score_vertical g x (band_thickness g.width band)
          (margin_lo g.height) (margin_hi g.height))
        (split_candidates g.width search) with
    | none =>
      exact ⟨split_mid g.width, Or.inr rfl, rfl⟩
    | some p =>
      obtain ⟨bx, bs⟩ := p
      have hm := runSearch_mem _ _ _ _ hr
      by_cases hc : (↑(gutter_score_vertical g (split_mid g.width)
          (band_thickness g.width band) (margin_lo g.height) (margin_hi g.height)) : ℚ)
          * (95 / 100) < (bs : ℚ)
      · refine ⟨split_mid g.width, Or.inr rfl, ?_⟩
        show map_back (if _ then split_mid g.width else bx) scale = _
        rw [if_pos hc]
      · refine ⟨bx, Or.inl hm.1, ?_⟩
        show map_back (if _ then split_mid g.width else bx) scale = _
        rw [if_neg hc]
  · simp only [find_split_horizontal_core, chosen_horizontal]
    cases hr : runSearch
        (fun y => gutter_score_horizontal g y (band_thickness g.height band)
          (margin_lo g.width) (margin_hi g.width))
        (split_candidates g.height search) with
    | none =>
      exact ⟨split_mid g.height, Or.inr rfl, rfl⟩
    | some p =>
      obtain ⟨by_, bs⟩ := p
      have hm := runSearch_mem _ _ _ _ hr
      by_cases hc : (↑(gutter_score_horizontal g (split_mid g.height)
          (band_thickness g.height band) (margin_lo g.width) (margin_hi g.width)) : ℚ)
          * (95 / 100) < (bs : ℚ)
      · refine ⟨split_mid g.height, Or.inr rfl, ?_⟩
        show map_back (if _ then split_mid g.height else by_) scale = _
        rw [if_pos hc]
      · refine ⟨by_, Or.inl hm.1, ?_⟩
        show map_back (if _ then split_mid g.height else by_) scale = _
        rw [if_neg hc]

/-! ## Claim C1: centre-bias fallback (corrected) -/

/-- C1 counterexample. On a 6×3 all-white analysis image (scale 1,
search 0.9, band 0.01) every strided candidate scores 0, exactly the centre
score, so no candidate strictly beats `center_score * 0.95 = 0` — yet the
locator keeps the first candidate (coordinate 1) instead of discarding it
for the midline 3: the source only falls back when
`best_score > center_score * 0.95`, so a best score *equal* to the
threshold (here both are 0) is kept. -/
theorem centre_fallback_counterexample :
    split_candidates 6 (9 / 10) = [1, 2, 3, 4]
    ∧ (∀ x ∈ [1, 2, 3, 4],
        gutter_score_vertical ⟨6, 3, fun _ _ => 255⟩ x (band_thickness 6 (1 / 100))
          (margin_lo 3) (margin_hi 3) = 0)
    ∧ gutter_score_vertical ⟨6, 3, fun _ _ => 255⟩ (split_mid 6) (band_thickness 6 (1 / 100))
        (margin_lo 3) (margin_hi 3) = 0
    ∧ ¬ ((0 : ℚ) < (0 : ℚ) * (95 / 100))
    ∧ chosen_vertical ⟨6, 3, fun _ _ => 255⟩ (9 / 10) (1 / 100) = 1
    ∧ find_split_vertical_core ⟨6, 3, fun _ _ => 255⟩ 1 (9 / 10) (1 / 100) = 1
    ∧ map_back (split_mid 6) 1 = 3
    ∧ (1 : ℤ) ≠ 3 := by
  have hml : margin_lo 3 = 0 := by
    unfold margin_lo
    norm_num
  have hmh : margin_hi 3 = 2 := by
    unfold margin_hi
    norm_num
    rfl
  have hbt : band_thickness 6 (1 / 100) = 2 := by
    unfold band_thickness
    norm_num
  have hcand : split_candidates 6 (9 / 10) = [1, 2, 3, 4] := by
    unfold split_candidates split_start split_stop split_step split_mid half_window
    norm_num
    decide
  have hrs : runSearch
      (fun x => gutter_score_vertical ⟨6, 3, fun _ _ => 255⟩ x 2 0 2) [1, 2, 3, 4]
      = some (1, 0) := by decide
  have hchosen : chosen_vertical ⟨6, 3, fun _ _ => 255⟩ (9 / 10) (1 / 100) = 1 := by
    simp only [chosen_vertical]
    rw [hml, hmh, hbt, hcand, hrs]
    show (if ((gutter_score_vertical ⟨6, 3, fun _ _ => 255⟩ 3 2 0 2 : ℕ) : ℚ)
        * (95 / 100) < ((0 : ℕ) : ℚ) then 3 else 1) = 1
    rw [if_neg]
    rw [show gutter_score_vertical ⟨6, 3, fun _ _ => 255⟩ 3 2 0 2 = 0 from by decide]
    norm_num
  refine ⟨hcand, ?_, ?_, by norm_num, hchosen, ?_,
    by unfold map_back split_mid; norm_num, by decide⟩
  · intro x hx
    rw [hml, hmh, hbt]
    fin_cases hx <;> decide
  · rw [hml, hmh, hbt]
    decide
  · simp only [find_split_vertical_core]
    rw [hchosen]
    unfold map_back
    norm_num

/-- C1 amended. If the search loop never ran, or its best candidate's score
strictly exceeds `center_score * 0.95`, the locator selects the midline
(mapped to full resolution). Equivalently the best candidate is kept iff its
score is ≤ `center_score * 0.95` — including ties, so "no candidate strictly
beats the threshold" does not by itself force the fallback. -/
theorem centre_fallback_amended (g : Img) (scale search band : ℚ) :
    ((∀ bx bs, runSearch
        (fun x => gutter_score_vertical g x (band_thickness g.width band)
          (margin_lo g.height) (margin_hi g.height))
        (split_candidates g.width search) = some (bx, bs) →
        (↑(gutter_score_vertical g (split_mid g.width) (band_thickness g.width band)
          (margin_lo g.height) (margin_hi g.height)) : ℚ) * (95 / 100) < (bs : ℚ)) →
      find_split_vertical_core g scale search band = map_back (split_mid g.width) scale)
    ∧ ((∀ by_ bs, runSearch
        (fun y => gutter_score_horizontal g y (band_thickness g.height band)
          (margin_lo g.width) (margin_hi g.width))
        (split_candidates g.height search) = some (by_, bs) →
        (↑(gutter_score_horizontal g (split_mid g.height) (band_thickness g.height band)
          (margin_lo g.width) (margin_hi g.width)) : ℚ) * (95 / 100) < (bs : ℚ)) →
      find_split_horizontal_core g scale search band = map_back (split_mid g.height) scale) := by
  constructor
  · intro h
    simp only [find_split_vertical_core, chosen_vertical]
    cases hr : runSearch
        (fun x => gutter_score_vertical g x (band_thickness g.width band)
          (margin_lo g.height) (margin_hi g.height))
        (split_candidates g.width search) with
    | none => rfl
    | some p =>
      obtain ⟨bx, bs⟩ := p
      show map_back (if _ then split_mid g.width else bx) scale = _
      rw [if_pos (h bx bs hr)]
  · intro h
    simp only [find_split_horizontal_core, chosen_horizontal]
    cases hr : runSearch
        (fun y => gutter_score_horizontal g y (band_thickness g.height band)
          (margin_lo g.width) (margin_hi g.width))
        (split_candidates g.height search) with
    | none => rfl
    | some p =>
      obtain ⟨by_, bs⟩ := p
      show map_back (if _ then split_mid g.height else by_) scale = _
      rw [if_pos (h by_ bs hr)]

/-- Witness for the amended C1: on a 6×6 all-black image every candidate
scores 2550, the centre too, so `2550 > 0.95 * 2550` triggers the fallback
and both locators return the midline 3. -/
theorem centre_fallback_amended_witness :
    find_split_vertical_core ⟨6, 6, fun _ _ => 0⟩ 1 (9 / 10) (1 / 100) = 3
    ∧ find_split_horizontal_core ⟨6, 6, fun _ _ => 0⟩ 1 (9 / 10) (1 / 100) = 3 := by
  have hml : margin_lo 6 = 0 := by
    unfold margin_lo
    norm_num
  have hmh : margin_hi 6 = 5 := by
    unfold margin_hi
    norm_num
    rfl
  have hbt : band_thickness 6 (1 / 100) = 2 := by
    unfold band_thickness
    norm_num
  have hcand : split_candidates 6 (9 / 10) = [1, 2, 3, 4] := by
    unfold split_candidates split_start split_stop split_step split_mid half_window
    norm_num
    decide
  have hsm : split_mid 6 = 3 := rfl
  constructor
  · have hv := (centre_fallback_amended ⟨6, 6, fun _ _ => 0⟩ 1 (9 / 10) (1 / 100)).1
    simp only [hml, hmh, hbt, hcand, hsm] at hv
    rw [hv ?_]
    · unfold map_back
      norm_num
    · intro bx bs h
      rw [show runSearch
          (fun x => gutter_score_vertical ⟨6, 6, fun _ _ => 0⟩ x 2 0 5) [1, 2, 3, 4]
          = some (1, 2550) from by decide] at h
      have hbs : bs = 2550 := by
        have := h.symm
        simp only [Option.some.injEq, Prod.mk.injEq] at this
        exact this.2
      subst hbs
      rw [show gutter_score_vertical ⟨6, 6, fun _ _ => 0⟩ 3 2 0 5 = 2550 from by decide]
      norm_num
  · have hh := (centre_fallback_amended ⟨6, 6, fun _ _ => 0⟩ 1 (9 / 10) (1 / 100)).2
    simp only [hml, hmh, hbt, hcand, hsm] at hh
    rw [hh ?_]
    · unfold map_back
      norm_num
    · intro by_ bs h
      rw [show runSearch
          (fun y => gutter_score_horizontal ⟨6, 6, fun _ _ => 0⟩ y 2 0 5) [1, 2, 3, 4]
          = some (1, 2550) from by decide] at h
      have hbs : bs = 2550 := by
        have := h.symm
        simp only [Option.some.injEq, Prod.mk.injEq] at this
        exact this.2
      subst hbs
      rw [show gutter_score_horizontal ⟨6, 6, fun _ _ => 0⟩ 3 2 0 5 = 2550 from by decide]
      norm_num

/-! ## Claim C6: back-mapping to full resolution (corrected) -/

/-- C6 counterexample. The back-mapping is `int(best * scale)` — truncation,
not rounding to nearest. A 302×1200 image downsamples to 226×900 with scale
4/3; the vertical locator selects the analysis midline 113, and the returned
full-resolution coordinate is `⌊113 * 4/3⌋ = 150`, while rounding
`113 * 4/3 = 150.67` to the nearest integer gives 151. -/
theorem map_back_counterexample :
    downsample_for_analysis ⟨302, 1200, fun _ _ => 0⟩ 900
      = (⟨226, 900, fun _ _ => 0⟩, 4 / 3)
    ∧ chosen_vertical ⟨226, 900, fun _ _ => 0⟩ (1 / 1000) (1 / 100) = 113
    ∧ find_split_vertical ⟨302, 1200, fun _ _ => 0⟩ (1 / 1000) (1 / 100) = 150
    ∧ round ((113 : ℚ) * (4 / 3)) = 151
    ∧ (150 : ℤ) ≠ 151 := by
  have hds : downsample_for_analysis ⟨302, 1200, fun _ _ => 0⟩ 900
      = (⟨226, 900, fun _ _ => 0⟩, 4 / 3) := by
    have hmax : (max 302 1200 : ℕ) = 1200 := by decide
    simp only [downsample_for_analysis, resize]
    rw [← Nat.cast_max, hmax]
    rw [if_neg (by norm_num)]
    rw [show max 1 (⌊((302 : ℕ) : ℚ) / (((1200 : ℕ) : ℚ) / ((900 : ℕ) : ℚ))⌋).toNat = 226
        from by norm_num; rfl]
    rw [show max 1 (⌊((1200 : ℕ) : ℚ) / (((1200 : ℕ) : ℚ) / ((900 : ℕ) : ℚ))⌋).toNat = 900
        from by norm_num; rfl]
    rw [show (((1200 : ℕ) : ℚ) / ((900 : ℕ) : ℚ)) = 4 / 3 from by norm_num]
  have hml : margin_lo 900 = 72 := by
    unfold margin_lo
    norm_num
    all_goals rfl
  have hmh : margin_hi 900 = 828 := by
    unfold margin_hi
    norm_num
    all_goals rfl
  have hbt : band_thickness 226 (1 / 100) = 2 := by
    unfold band_thickness
    norm_num
    all_goals rfl
  have hcand : split_candidates 226 (1 / 1000) = [113] := by
    unfold split_candidates split_start split_stop split_step split_mid half_window
    norm_num
    all_goals decide
  have hchosen : chosen_vertical ⟨226, 900, fun _ _ => 0⟩ (1 / 1000) (1 / 100) = 113 := by
    simp only [chosen_vertical]
    rw [hml, hmh, hbt, hcand]
    show (if _ then split_mid 226 else 113) = 113
    rw [show split_mid 226 = 113 from rfl, ite_self]
  refine ⟨hds, hchosen, ?_, by rw [round_eq]; norm_num, by decide⟩
  simp only [find_split_vertical]
  rw [hds]
  simp only [find_split_vertical_core]
  rw [hchosen]
  unfold map_back
  norm_num

/-- C6 amended. The locator's full-resolution coordinate is the *floor*
(truncation) of `analysis_coord * scale`, not round-to-nearest: the result
is the unique integer in `(c*s - 1, c*s]`, coincides with `c` when the
scale is 1, and the locator cores are exactly this back-mapping applied to
the selected analysis coordinate. -/
theorem map_back_truncates (c : ℕ) (s : ℚ) (g : Img) (scale search band : ℚ) :
    ((map_back c s : ℚ) ≤ (c : ℚ) * s ∧ (c : ℚ) * s < (map_back c s : ℚ) + 1)
    ∧ map_back c 1 = (c : ℤ)
    ∧ find_split_vertical_core g scale search band
        = map_back (chosen_vertical g search band) scale
    ∧ find_split_horizontal_core g scale search band
        = map_back (chosen_horizontal g search band) scale := by
  refine ⟨⟨Int.floor_le _, Int.lt_floor_add_one _⟩, ?_, rfl, rfl⟩
  unfold map_back
  rw [mul_one]
  exact Int.floor_natCast c

/-! ## Claim C8: bounded search cost (corrected) -/

/-- C8 counterexample. The claim bounds the strided candidate count by ~500
for every dimension and search fraction. For dimension 999 and search
fraction 0.999 the stride is 1 and the locator scans 997 candidates — nearly
double 500. -/
theorem search_cost_counterexample :
    (split_candidates 999 (999 / 1000)).length = 997
    ∧ ¬ (split_candidates 999 (999 / 1000)).length ≤ 500 := by
  have h : split_candidates 999 (999 / 1000) = List.range' 1 997 1 := by
    unfold split_candidates split_start split_stop split_step split_mid half_window
    norm_num
    decide
  rw [h]
  simp

/-- C8 amended. The stride is `max(1, ⌊d / 500⌋)` and the number of strided
candidate positions (hence scorer evaluations in the loop) is bounded by 997
for every dimension and search fraction — a resolution-independent bound,
but nearly double the ~500 the spec states (the worst case is a wide search
window at a dimension just below 1000, where the stride is still 1). -/
theorem search_cost_amended (d : ℕ) (search : ℚ) :
    split_step d = max 1 (d / 500)
    ∧ (split_candidates d search).length ≤ 997 := by
  have hstep : split_step d = max 1 (d / 500) := by
    unfold split_step
    congr 1
    rw [show ((500 : ℚ)) = ((500 : ℕ) : ℚ) from by norm_num]
    rw [Rat.floor_natCast_div_natCast]
    rw [show ((d : ℤ) / ((500 : ℕ) : ℤ)) = ((d / 500 : ℕ) : ℤ) from (Int.ofNat_div d 500).symm]
    exact Int.toNat_ofNat _
  refine ⟨hstep, ?_⟩
  simp only [split_candidates]
  split
  · rw [List.length_range']
    have h1 : 1 ≤ split_start d search := le_max_left _ _
    have h2 : split_stop d search ≤ d - 2 := min_le_left _ _
    rcases lt_or_le d 1000 with hd | hd
    · have h3 : (split_stop d search - split_start d search) / split_step d
          ≤ split_stop d search - split_start d search := Nat.div_le_self _ _
      omega
    · have hq2 : 2 ≤ d / 500 := by omega
      have hq : split_step d = d / 500 := by
        rw [hstep]
        omega
      have hd3 : split_stop d search - split_start d search ≤ 496 + 500 * (d / 500) := by
        have : d < 500 * (d / 500) + 500 := by omega
        omega
      calc (split_stop d search - split_start d search) / split_step d + 1
          ≤ (496 + 500 * (d / 500)) / (d / 500) + 1 := by
            rw [hq]
            exact Nat.add_le_add_right (Nat.div_le_div_right hd3) 1
        _ = 496 / (d / 500) + 500 + 1 := by
            rw [Nat.add_mul_div_right _ _ (by omega : 0 < d / 500)]
        _ ≤ 496 / 2 + 501 := by
            have h4 : 496 / (d / 500) ≤ 496 / 2 := Nat.div_le_div_left hq2 (by norm_num)
            omega
        _ ≤ 997 := by norm_num
  · simp

end SpliceDeed
